import Mathlib

/-!
# Verification of the job-postings dashboard data pipeline

Shallow embedding of `src/compact_jobs_dashboard.py` (a pandas/Streamlit
dashboard).  Modelling conventions:

* A pandas numeric cell (a float that may be `NaN`, either because the
  spreadsheet cell was empty or because a computation propagated `NaN`) is
  modelled as `Option ℚ`, with `none` playing the role of `NaN`/null.
  Pandas arithmetic on `NaN` propagates it, and every ordered comparison
  against `NaN` is false; both behaviours are modelled explicitly below.
* A pandas `DataFrame` row is a `RawRow`; the loaded table is a
  `List RawRow`.
* Text columns (`title`, `companyName`, `location`) are `String`s; the
  free-text `tagsAndSkills` column is `Option String` (it may be null and
  is `dropna`-ed by the code before use).
-/

/-- One row of the source spreadsheet, with the columns the program reads
(`title, companyName, location, tagsAndSkills, minimumSalary,
maximumSalary, minimumExperience, maximumExperience`).  Numeric cells are
`Option ℚ` (`none` = empty cell / pandas `NaN`). -/
structure RawRow where
  title : String
  companyName : String
  location : String
  tagsAndSkills : Option String
  minimumSalary : Option ℚ
  maximumSalary : Option ℚ
  minimumExperience : Option ℚ
  maximumExperience : Option ℚ
deriving Repr, DecidableEq

/-- Pandas addition of two possibly-`NaN` floats: `NaN` propagates. -/
def nanAdd : Option ℚ → Option ℚ → Option ℚ
  | some a, some b => some (a + b)
  | _, _ => none

/-- Pandas halving of a possibly-`NaN` float: `NaN` propagates. -/
def nanHalf : Option ℚ → Option ℚ
  | some a => some (a / 2)
  | none => none

/-- `df['avgSalary'] = (df['minimumSalary'] + df['maximumSalary']) / 2`
(line 73 of the source). -/
def avgSalary (r : RawRow) : Option ℚ :=
  nanHalf (nanAdd r.minimumSalary r.maximumSalary)

/-- `df['avgExperience'] = (df['minimumExperience'] + df['maximumExperience']) / 2`
(line 74 of the source). -/
def avgExperience (r : RawRow) : Option ℚ :=
  nanHalf (nanAdd r.minimumExperience r.maximumExperience)

/-- Python `exp <= c` where `exp` is a float that may be `NaN`: every
ordered comparison against `NaN` is false. -/
def nanLe (x : Option ℚ) (c : ℚ) : Bool :=
  match x with
  | some a => decide (a ≤ c)
  | none => false

/-- `categorize_experience` (lines 76–81 of the source): the if/elif chain
over `exp <= 1 / 3 / 5 / 10`. -/
def categorize_experience (exp : Option ℚ) : String :=
  if nanLe exp 1 then "Fresher (0-1 years)"
  else if nanLe exp 3 then "Entry Level (1-3 years)"
  else if nanLe exp 5 then "Mid Level (3-5 years)"
  else if nanLe exp 10 then "Senior Level (5-10 years)"
  else "Expert Level (10+ years)"

/-- `df['experienceCategory']` (line 83 of the source). -/
def experienceCategory (r : RawRow) : String :=
  categorize_experience (avgExperience r)

/-- The five category strings produced by `categorize_experience`. -/
def experienceBands : List String :=
  ["Fresher (0-1 years)", "Entry Level (1-3 years)", "Mid Level (3-5 years)",
   "Senior Level (5-10 years)", "Expert Level (10+ years)"]

/-- `categorize_experience` is total: every input, `NaN` included, lands
in one of the five band strings. -/
theorem categorize_mem_bands (exp : Option ℚ) :
    categorize_experience exp ∈ experienceBands := by
  unfold categorize_experience
  split_ifs <;> simp [experienceBands]

/-- `len(df)` — the `Total Jobs` KPI (line 210 of the source). -/
def totalJobs (table : List RawRow) : Nat := table.length

/-- The distinct values of a string column in order of first occurrence,
with `seen` accumulating the values already emitted. -/
def firstUniquesAux (seen : List String) : List String → List String
  | [] => []
  | x :: xs =>
    if x ∈ seen then firstUniquesAux seen xs
    else x :: firstUniquesAux (x :: seen) xs

/-- The distinct values of a string column, in order of first occurrence
(the order in which a pandas hash table enumerates unique values). -/
def firstUniques (xs : List String) : List String := firstUniquesAux [] xs

/-- Ordering used by the `value_counts` model: `p` precedes `q` when `p`'s
count is larger, or the counts are equal and `p`'s value occurs first in
the column `xs`.  `pandas.Series.value_counts` documents only the
descending-count order and leaves the tie order unspecified; the spec
fixes ties to first-encountered order, and this model follows it. -/
def vcRel (xs : List String) (p q : String × Nat) : Prop :=
  q.2 < p.2 ∨ (p.2 = q.2 ∧ xs.indexOf p.1 ≤ xs.indexOf q.1)

instance (xs : List String) : DecidableRel (vcRel xs) := fun p q => by
  unfold vcRel; infer_instance

instance (xs : List String) : IsTotal (String × Nat) (vcRel xs) := by
  constructor
  intro p q
  rcases Nat.lt_trichotomy p.2 q.2 with h | h | h
  · exact Or.inr (Or.inl h)
  · rcases Nat.le_total (xs.indexOf p.1) (xs.indexOf q.1) with h2 | h2
    · exact Or.inl (Or.inr ⟨h, h2⟩)
    · exact Or.inr (Or.inr ⟨h.symm, h2⟩)
  · exact Or.inl (Or.inl h)

instance (xs : List String) : IsTrans (String × Nat) (vcRel xs) := by
  constructor
  intro p q s hpq hqs
  rcases hpq with h1 | ⟨e1, i1⟩
  · rcases hqs with h2 | ⟨e2, i2⟩
    · exact Or.inl (h2.trans h1)
    · exact Or.inl (e2 ▸ h1)
  · rcases hqs with h2 | ⟨e2, i2⟩
    · exact Or.inl (e1 ▸ h2)
    · exact Or.inr ⟨e1.trans e2, i1.trans i2⟩

/-- Model of `pandas.Series.value_counts()` on a string column: one
`(value, count)` pair per distinct value of the column, sorted by
descending count (ties in first-encountered order, see `vcRel`). -/
def value_counts (xs : List String) : List (String × Nat) :=
  List.insertionSort (vcRel xs) ((firstUniques xs).map (fun k => (k, xs.count k)))

/-- `df['experienceCategory'].value_counts()` — the experience-category
distribution behind the pie chart (line 179 of the source). -/
def experienceDistribution (table : List RawRow) : List (String × Nat) :=
  value_counts (table.map experienceCategory)

/-- `df['title'].value_counts().head(10)` — the top-10 titles bar-chart
data (line 106 of the source). -/
def title_counts (table : List RawRow) : List (String × Nat) :=
  (value_counts (table.map RawRow.title)).take 10

theorem mem_firstUniquesAux (a : String) :
    ∀ (xs seen : List String), a ∈ firstUniquesAux seen xs ↔ a ∈ xs ∧ a ∉ seen := by
  intro xs
  induction xs with
  | nil => intro seen; simp [firstUniquesAux]
  | cons x xs ih =>
    intro seen
    rw [firstUniquesAux]
    by_cases hx : x ∈ seen
    · rw [if_pos hx, ih seen, List.mem_cons]
      constructor
      · rintro ⟨h1, h2⟩; exact ⟨Or.inr h1, h2⟩
      · rintro ⟨h1 | h1, h2⟩
        · exact absurd (h1 ▸ hx) h2
        · exact ⟨h1, h2⟩
    · rw [if_neg hx, List.mem_cons, List.mem_cons, ih (x :: seen)]
      constructor
      · rintro (rfl | ⟨h1, h2⟩)
        · exact ⟨Or.inl rfl, hx⟩
        · exact ⟨Or.inr h1, fun hs => h2 (List.mem_cons.mpr (Or.inr hs))⟩
      · rintro ⟨rfl | h1, h2⟩
        · exact Or.inl rfl
        · by_cases hax : a = x
          · exact Or.inl hax
          · exact Or.inr ⟨h1, fun hs => (List.mem_cons.mp hs).elim hax h2⟩

theorem nodup_firstUniquesAux :
    ∀ (xs seen : List String), (firstUniquesAux seen xs).Nodup := by
  intro xs
  induction xs with
  | nil => intro seen; simp [firstUniquesAux]
  | cons x xs ih =>
    intro seen
    by_cases hx : x ∈ seen
    · rw [firstUniquesAux, if_pos hx]; exact ih seen
    · rw [firstUniquesAux, if_neg hx]
      refine List.nodup_cons.mpr ⟨?_, ih (x :: seen)⟩
      intro hmem
      exact ((mem_firstUniquesAux x xs (x :: seen)).mp hmem).2 (List.mem_cons_self x seen)

theorem mem_firstUniques (a : String) (xs : List String) :
    a ∈ firstUniques xs ↔ a ∈ xs := by
  rw [firstUniques, mem_firstUniquesAux]
  simp

theorem nodup_firstUniques (xs : List String) : (firstUniques xs).Nodup :=
  nodup_firstUniquesAux xs []

theorem count_cons_ne (k x : String) (t : List String) (h : k ≠ x) :
    (x :: t).count k = t.count k := by
  rw [List.count_cons]
  simp [h, Ne.symm h]

theorem count_filter_not_mem_cons (x : String) (seen : List String) (hx : x ∉ seen) :
    ∀ t : List String,
      t.count x + (t.filter (fun y => !decide (y ∈ x :: seen))).length
        = (t.filter (fun y => !decide (y ∈ seen))).length := by
  intro t
  induction t with
  | nil => simp
  | cons y t ih =>
    rw [List.filter_cons, List.filter_cons]
    by_cases hyx : y = x
    · subst hyx
      have h1 : (!decide (y ∈ y :: seen)) = false := by simp
      have h2 : (!decide (y ∈ seen)) = true := by simp [hx]
      rw [h1, h2, List.count_cons_self]
      simp only [Bool.false_eq_true, if_false, if_true, List.length_cons]
      omega
    · rw [count_cons_ne x y t (Ne.symm hyx)]
      by_cases hys : y ∈ seen
      · have h1 : (!decide (y ∈ x :: seen)) = false := by simp [hys]
        have h2 : (!decide (y ∈ seen)) = false := by simp [hys]
        rw [h1, h2]
        simp only [Bool.false_eq_true, if_false]
        exact ih
      · have h1 : (!decide (y ∈ x :: seen)) = true := by simp [hys, hyx]
        have h2 : (!decide (y ∈ seen)) = true := by simp [hys]
        rw [h1, h2]
        simp only [if_true, List.length_cons]
        omega

theorem sum_counts_firstUniquesAux :
    ∀ (xs seen : List String),
      ((firstUniquesAux seen xs).map (fun k => xs.count k)).sum
        = (xs.filter (fun y => !decide (y ∈ seen))).length := by
  intro xs
  induction xs with
  | nil => intro seen; simp [firstUniquesAux]
  | cons x t ih =>
    intro seen
    rw [firstUniquesAux]
    by_cases hx : x ∈ seen
    · rw [if_pos hx]
      have hcongr : (firstUniquesAux seen t).map (fun k => (x :: t).count k)
          = (firstUniquesAux seen t).map (fun k => t.count k) := by
        apply List.map_congr_left
        intro k hk
        have hk2 := (mem_firstUniquesAux k t seen).mp hk
        exact count_cons_ne k x t (fun h => hk2.2 (h ▸ hx))
      rw [hcongr, ih seen, List.filter_cons]
      have hfx : (!decide (x ∈ seen)) = false := by simp [hx]
      rw [hfx]
      simp only [Bool.false_eq_true, if_false]
    · rw [if_neg hx]
      have hcongr : (firstUniquesAux (x :: seen) t).map (fun k => (x :: t).count k)
          = (firstUniquesAux (x :: seen) t).map (fun k => t.count k) := by
        apply List.map_congr_left
        intro k hk
        have hk2 := (mem_firstUniquesAux k t (x :: seen)).mp hk
        exact count_cons_ne k x t (fun h => hk2.2 (h ▸ List.mem_cons_self x seen))
      have hfx : (!decide (x ∈ seen)) = true := by simp [hx]
      rw [List.map_cons, List.sum_cons, hcongr, ih (x :: seen),
        List.count_cons_self, List.filter_cons, hfx]
      simp only [if_true, List.length_cons]
      have := count_filter_not_mem_cons x seen hx t
      omega

/-- The counts in a `value_counts` result sum to the column length
(nothing is dropped: every row's value is counted exactly once). -/
theorem sum_value_counts (xs : List String) :
    ((value_counts xs).map Prod.snd).sum = xs.length := by
  have hperm : List.Perm (value_counts xs) ((firstUniques xs).map (fun k => (k, xs.count k))) :=
    List.perm_insertionSort _ _
  have hsum := (hperm.map Prod.snd).sum_eq
  rw [hsum, List.map_map]
  have : (Prod.snd ∘ fun k => (k, xs.count k)) = fun k => xs.count k := rfl
  rw [this, firstUniques, sum_counts_firstUniquesAux]
  simp [List.filter_true]

/-- Membership in `value_counts`: exactly the pairs `(k, count k)` for the
distinct values `k` of the column. -/
theorem mem_value_counts (xs : List String) (p : String × Nat) :
    p ∈ value_counts xs ↔ p.1 ∈ xs ∧ p.2 = xs.count p.1 := by
  rw [value_counts, List.mem_insertionSort, List.mem_map]
  constructor
  · rintro ⟨k, hk, rfl⟩
    exact ⟨(mem_firstUniques k xs).mp hk, rfl⟩
  · rintro ⟨h1, h2⟩
    exact ⟨p.1, (mem_firstUniques p.1 xs).mpr h1, by rw [← h2]⟩

/-- The keys of `value_counts xs` are a permutation of the distinct values
of `xs` in first-occurrence order. -/
theorem keys_value_counts_perm (xs : List String) :
    List.Perm ((value_counts xs).map Prod.fst) (firstUniques xs) := by
  have hperm : List.Perm (value_counts xs) ((firstUniques xs).map (fun k => (k, xs.count k))) :=
    List.perm_insertionSort _ _
  have := hperm.map Prod.fst
  rwa [List.map_map, show (Prod.fst ∘ fun k => (k, xs.count k)) = id from rfl,
    List.map_id] at this

/-! ## Per-row derived-field claims -/

/-- C1: for every row, `avgSalary` is null iff at least one of
`minimumSalary`/`maximumSalary` is null, and when both are present it is
exactly `(min + max) / 2`; `avgExperience` satisfies the same property
over the experience bounds. -/
theorem avgSalary_avgExperience_spec (r : RawRow) :
    (avgSalary r = none ↔ (r.minimumSalary = none ∨ r.maximumSalary = none))
    ∧ (∀ a b : ℚ, r.minimumSalary = some a → r.maximumSalary = some b →
        avgSalary r = some ((a + b) / 2))
    ∧ (avgExperience r = none ↔ (r.minimumExperience = none ∨ r.maximumExperience = none))
    ∧ (∀ a b : ℚ, r.minimumExperience = some a → r.maximumExperience = some b →
        avgExperience r = some ((a + b) / 2)) := by
  refine ⟨?_, ?_, ?_, ?_⟩
  · cases hmin : r.minimumSalary <;> cases hmax : r.maximumSalary <;>
      simp [avgSalary, nanAdd, nanHalf, hmin, hmax]
  · intro a b h1 h2
    simp [avgSalary, nanAdd, nanHalf, h1, h2]
  · cases hmin : r.minimumExperience <;> cases hmax : r.maximumExperience <;>
      simp [avgExperience, nanAdd, nanHalf, hmin, hmax]
  · intro a b h1 h2
    simp [avgExperience, nanAdd, nanHalf, h1, h2]

/-- A row used in concrete instantiations: salary bounds 1000/2000,
experience bounds 0/1. -/
def rowFresher : RawRow :=
  ⟨"Analyst", "Acme", "Pune", none, some 1000, some 2000, some 0, some 1⟩

/-- Witness for C1 at `rowFresher`: both salary bounds present, so
`avgSalary = (1000 + 2000) / 2`. -/
theorem avgSalary_avgExperience_spec_witness :
    avgSalary rowFresher = some ((1000 + 2000) / 2) :=
  (avgSalary_avgExperience_spec rowFresher).2.1 1000 2000 rfl rfl

/-- C2: on numeric input, `categorize_experience` lands in one of the five
bands; the bands `[0,1]`, `(1,3]`, `(3,5]`, `(5,10]`, `(10,∞)` map to
Fresher/Entry/Mid/Senior/Expert respectively, and the boundary points
`1, 3, 5, 10, 10.01` fall as the claim states. -/
theorem categorize_experience_bands (q : ℚ) :
    categorize_experience (some q) ∈ experienceBands
    ∧ (0 ≤ q → q ≤ 1 → categorize_experience (some q) = "Fresher (0-1 years)")
    ∧ (1 < q → q ≤ 3 → categorize_experience (some q) = "Entry Level (1-3 years)")
    ∧ (3 < q → q ≤ 5 → categorize_experience (some q) = "Mid Level (3-5 years)")
    ∧ (5 < q → q ≤ 10 → categorize_experience (some q) = "Senior Level (5-10 years)")
    ∧ (10 < q → categorize_experience (some q) = "Expert Level (10+ years)")
    ∧ categorize_experience (some 1) = "Fresher (0-1 years)"
    ∧ categorize_experience (some 3) = "Entry Level (1-3 years)"
    ∧ categorize_experience (some 5) = "Mid Level (3-5 years)"
    ∧ categorize_experience (some 10) = "Senior Level (5-10 years)"
    ∧ categorize_experience (some (1001 / 100)) = "Expert Level (10+ years)" := by
  refine ⟨?_, ?_, ?_, ?_, ?_, ?_, ?_, ?_, ?_, ?_, ?_⟩
  · exact categorize_mem_bands (some q)
  · intro _ h2
    simp [categorize_experience, nanLe, h2]
  · intro h1 h2
    simp [categorize_experience, nanLe, not_le.mpr h1, h2]
  · intro h1 h2
    have h0 : ¬ q ≤ 1 := not_le.mpr (lt_trans (by norm_num) h1)
    simp [categorize_experience, nanLe, h0, not_le.mpr h1, h2]
  · intro h1 h2
    have h0 : ¬ q ≤ 1 := not_le.mpr (lt_trans (by norm_num) h1)
    have h3 : ¬ q ≤ 3 := not_le.mpr (lt_trans (by norm_num) h1)
    simp [categorize_experience, nanLe, h0, h3, not_le.mpr h1, h2]
  · intro h1
    have h0 : ¬ q ≤ 1 := not_le.mpr (lt_trans (by norm_num) h1)
    have h3 : ¬ q ≤ 3 := not_le.mpr (lt_trans (by norm_num) h1)
    have h5 : ¬ q ≤ 5 := not_le.mpr (lt_trans (by norm_num) h1)
    simp [categorize_experience, nanLe, h0, h3, h5, not_le.mpr h1]
  · norm_num [categorize_experience, nanLe]
  · norm_num [categorize_experience, nanLe]
  · norm_num [categorize_experience, nanLe]
  · norm_num [categorize_experience, nanLe]
  · norm_num [categorize_experience, nanLe]

/-- Witness for C2 at `q = 2`: `2 ∈ (1,3]` so the category is Entry. -/
theorem categorize_experience_bands_witness :
    categorize_experience (some 2) = "Entry Level (1-3 years)" :=
  (categorize_experience_bands 2).2.2.1 (by norm_num) (by norm_num)

/-! ## NaN experience rows (C10) and the distribution invariant (C6) -/

/-- A row whose experience bounds are missing, so `avgExperience` is NaN. -/
def rowNaNExp : RawRow :=
  ⟨"Architect", "Globex", "Delhi", none, some 4000, some 6000, none, none⟩

/-- C10: a NaN `avgExperience` (at least one missing bound) falls through
every `<=` test of `categorize_experience`, so the row is categorised as
`Expert Level (10+ years)` — not as a null category.  Consequently such a
row is counted under the Expert entry of `experienceDistribution` and is
never counted as Fresher. -/
theorem categorize_nan_expert (table : List RawRow) :
    categorize_experience none = "Expert Level (10+ years)"
    ∧ (∀ r : RawRow, avgExperience r = none →
        experienceCategory r = "Expert Level (10+ years)")
    ∧ (∀ p : String × Nat, p ∈ experienceDistribution table →
        p.1 = "Expert Level (10+ years)" →
        (table.filter (fun r => decide (avgExperience r = none))).length ≤ p.2)
    ∧ (∀ r : RawRow, r ∈ table → experienceCategory r = "Fresher (0-1 years)" →
        avgExperience r ≠ none) := by
  have hnan : categorize_experience none = "Expert Level (10+ years)" := rfl
  have hrow : ∀ r : RawRow, avgExperience r = none →
      experienceCategory r = "Expert Level (10+ years)" := by
    intro r h
    rw [experienceCategory, h, hnan]
  refine ⟨hnan, hrow, ?_, ?_⟩
  · intro p hp hexp
    have hcount := ((mem_value_counts _ p).mp hp).2
    rw [hcount, hexp]
    rw [List.count_eq_countP, List.countP_map, ← List.countP_eq_length_filter]
    apply List.countP_mono_left
    intro r _ hr
    simp only [Function.comp_apply, beq_iff_eq]
    exact hrow r (by simpa using hr)
  · intro r _ hfresh hnone
    rw [hrow r hnone] at hfresh
    exact absurd hfresh (by decide)

/-- Witness for C10 on the one-row table `[rowNaNExp]`: the row's
`avgExperience` is NaN, its category is Expert, the Expert entry of the
distribution counts it, and it is not a Fresher row. -/
theorem categorize_nan_expert_witness :
    experienceCategory rowNaNExp = "Expert Level (10+ years)"
    ∧ ([rowNaNExp].filter
        (fun r => decide (avgExperience r = none))).length ≤
        (("Expert Level (10+ years)", 1) : String × Nat).2 :=
  ⟨(categorize_nan_expert [rowNaNExp]).2.1 rowNaNExp rfl,
   (categorize_nan_expert [rowNaNExp]).2.2.1 ("Expert Level (10+ years)", 1)
     (by decide) rfl⟩

/-- C6: the counts of `experienceDistribution` sum to `totalJobs` for a
non-empty table (every row lands in exactly one category; `value_counts`
drops nothing because `categorize_experience` is total). -/
theorem sum_experienceDistribution (table : List RawRow) (_h : table ≠ []) :
    ((experienceDistribution table).map Prod.snd).sum = totalJobs table := by
  rw [experienceDistribution, sum_value_counts, List.length_map, totalJobs]

/-- Witness for C6 on a concrete two-row table. -/
theorem sum_experienceDistribution_witness :
    ((experienceDistribution [rowNaNExp, rowNaNExp]).map Prod.snd).sum
      = totalJobs [rowNaNExp, rowNaNExp] :=
  sum_experienceDistribution [rowNaNExp, rowNaNExp] (by decide)

/-! ## Experience distribution bands (C5) -/

/-- Counterexample to C5: on a one-row table whose only category is
Expert, `value_counts` reports only that category — the four bands with
zero rows are absent rather than present with count 0. -/
theorem experienceDistribution_missing_bands :
    experienceDistribution [rowNaNExp] = [("Expert Level (10+ years)", 1)]
    ∧ (∀ c : Nat, ("Fresher (0-1 years)", c) ∉ experienceDistribution [rowNaNExp])
    ∧ (experienceDistribution [rowNaNExp]).length ≠ experienceBands.length := by
  refine ⟨by decide, ?_, by decide⟩
  intro c hc
  have h : ("Fresher (0-1 years)" : String) ∈ List.map experienceCategory [rowNaNExp] :=
    ((mem_value_counts _ _).mp hc).1
  revert h
  decide

/-- C5 amended: `experienceDistribution` has one entry per category that
actually occurs in the table (with its exact positive row count, and each
key one of the five bands); a band with zero rows does not appear. -/
theorem experienceDistribution_occurring (table : List RawRow) :
    (∀ p : String × Nat, p ∈ experienceDistribution table ↔
      (p.1 ∈ table.map experienceCategory
        ∧ p.2 = (table.map experienceCategory).count p.1))
    ∧ (∀ p : String × Nat, p ∈ experienceDistribution table →
        0 < p.2 ∧ p.1 ∈ experienceBands)
    ∧ (∀ b : String, b ∉ table.map experienceCategory →
        ∀ c : Nat, (b, c) ∉ experienceDistribution table) := by
  have hmem : ∀ p : String × Nat, p ∈ experienceDistribution table ↔
      (p.1 ∈ table.map experienceCategory
        ∧ p.2 = (table.map experienceCategory).count p.1) := by
    intro p
    exact mem_value_counts _ p
  refine ⟨hmem, ?_, ?_⟩
  · intro p hp
    obtain ⟨h1, h2⟩ := (hmem p).mp hp
    constructor
    · rw [h2]
      exact List.count_pos_iff.mpr h1
    · obtain ⟨r, _, hr⟩ := List.mem_map.mp h1
      rw [← hr, experienceCategory]
      exact categorize_mem_bands _
  · intro b hb c hc
    exact hb ((hmem (b, c)).mp hc).1

/-- Witness for C5's amended statement on the one-row table. -/
theorem experienceDistribution_occurring_witness :
    0 < (("Expert Level (10+ years)", 1) : String × Nat).2
    ∧ ("Expert Level (10+ years)" : String) ∈ experienceBands :=
  (experienceDistribution_occurring [rowNaNExp]).2.1
    ("Expert Level (10+ years)", 1) (by decide)

/-! ## The fresher-percentage KPI (C3) -/

/-- The `Fresher Jobs` KPI (line 243 of the source):
`(len(df[df['experienceCategory'] == 'Fresher (0-1 years)']) / len(df)) * 100`.
Both lengths are Python `int`s, and `0 / 0` raises `ZeroDivisionError`;
the raised-exception outcome on an empty table is modelled as `none`. -/
def fresher_pct (table : List RawRow) : Option ℚ :=
  if table.length = 0 then none
  else some ((((table.filter
      (fun r => decide (experienceCategory r = "Fresher (0-1 years)"))).length : ℚ)
    / (table.length : ℚ)) * 100)

/-- C3 evaluated at the failing input: on the empty table the KPI
computation divides by `len(df) = 0` and raises (modelled `none`); it does
not return `0`. -/
theorem fresher_pct_empty_raises :
    fresher_pct [] = none ∧ fresher_pct [] ≠ some 0 := by
  constructor
  · rfl
  · intro h
    simp [fresher_pct] at h

/-! ## Loading and column validation (C4) -/

/-- A fetched spreadsheet, abstracted to the shape the load-time checks
inspect: its column names. -/
structure RawSheet where
  columns : List String
deriving Repr, DecidableEq

/-- The two ways `load_data` can terminate the script: the handled
`st.error(...); st.stop()` path (lines 68–70), and an uncaught Python
`KeyError` from `df[col]` on a missing column. -/
inductive LoadError
  | dataUnavailable (msg : String)
  | keyError (col : String)
deriving Repr, DecidableEq

/-- The required columns named by §4.1 of the spec. -/
def requiredColumns : List String :=
  ["title", "companyName", "location", "tagsAndSkills",
   "minimumSalary", "maximumSalary", "minimumExperience", "maximumExperience"]

/-- The columns `load_data` actually touches (lines 73–74), in evaluation
order: only the four numeric bound columns. -/
def loadAccessedColumns : List String :=
  ["minimumSalary", "maximumSalary", "minimumExperience", "maximumExperience"]

/-- Model of `load_data` (lines 62–84).  `fetch` is the outcome of
`pd.read_excel(sheet_url)`: `Except.error msg` when the fetch raises.  A
fetch failure is caught and becomes the handled stop (`dataUnavailable`);
otherwise `df['minimumSalary'] + df['maximumSalary']` and the experience
pair raise an uncaught `KeyError` on the first missing numeric column;
on success the three derived columns are appended.  No other column is
inspected at load time. -/
def load_data (fetch : Except String RawSheet) : Except LoadError RawSheet :=
  match fetch with
  | .error msg => .error (.dataUnavailable msg)
  | .ok df =>
    match loadAccessedColumns.find? (fun c => !(decide (c ∈ df.columns))) with
    | some c => .error (.keyError c)
    | none => .ok ⟨df.columns ++ ["avgSalary", "avgExperience", "experienceCategory"]⟩

/-- Model of `main`'s control flow (lines 197–199): the KPI and chart
code runs only if `load_data` returned a table; `st.stop()` or an
uncaught exception inside `load_data` propagates and nothing below
line 199 runs. -/
def main_runs_dashboard (fetch : Except String RawSheet) : Bool :=
  match load_data fetch with
  | .ok _ => true
  | .error _ => false

/-- A fetch result with every required column except `title`. -/
def sheetNoTitle : RawSheet :=
  ⟨["companyName", "location", "tagsAndSkills", "minimumSalary",
    "maximumSalary", "minimumExperience", "maximumExperience"]⟩

/-- Counterexample to C4: `title` is a required column, yet on a sheet
missing it `load_data` succeeds and the dashboard body runs — the load
does not fail with the unavailable-data stop, and aggregation is not
prevented. -/
theorem load_data_missing_title_succeeds :
    ("title" : String) ∈ requiredColumns
    ∧ ("title" : String) ∉ sheetNoTitle.columns
    ∧ load_data (.ok sheetNoTitle)
        = .ok ⟨sheetNoTitle.columns ++ ["avgSalary", "avgExperience", "experienceCategory"]⟩
    ∧ main_runs_dashboard (.ok sheetNoTitle) = true := by
  refine ⟨by decide, by decide, rfl, rfl⟩

/-- C4 amended: a failed fetch (unreachable or malformed source) is the
only case reported through the handled `DataUnavailableError`-style stop;
a sheet missing one of the four numeric columns makes `load_data` raise
an uncaught `KeyError` instead; in every failing case the dashboard body
does not run.  Columns other than the four numeric ones are not checked
at load time. -/
theorem load_data_amended :
    (∀ msg : String, load_data (.error msg) = .error (.dataUnavailable msg)
      ∧ main_runs_dashboard (.error msg) = false)
    ∧ (∀ df : RawSheet, (∀ c ∈ loadAccessedColumns, c ∈ df.columns) →
        load_data (.ok df)
          = .ok ⟨df.columns ++ ["avgSalary", "avgExperience", "experienceCategory"]⟩)
    ∧ (∀ df : RawSheet, (∃ c ∈ loadAccessedColumns, c ∉ df.columns) →
        (∃ c ∈ loadAccessedColumns,
          load_data (.ok df) = .error (.keyError c))
        ∧ main_runs_dashboard (.ok df) = false) := by
  refine ⟨fun msg => ⟨rfl, rfl⟩, ?_, ?_⟩
  · intro df h
    have hfind : loadAccessedColumns.find? (fun c => !(decide (c ∈ df.columns))) = none := by
      rw [List.find?_eq_none]
      intro c hc
      simp [h c hc]
    rw [load_data, hfind]
  · intro df h
    obtain ⟨c0, hc0, hmiss⟩ := h
    have hne : loadAccessedColumns.find? (fun c => !(decide (c ∈ df.columns))) ≠ none := by
      intro hnone
      have hall := List.find?_eq_none.mp hnone c0 hc0
      simp at hall
      exact hmiss hall
    obtain ⟨c, hc⟩ := Option.ne_none_iff_exists'.mp hne
    refine ⟨⟨c, List.mem_of_find?_eq_some hc, ?_⟩, ?_⟩
    · rw [load_data, hc]
    · rw [main_runs_dashboard, load_data, hc]

/-- Witness for C4's amended statement: a sheet with exactly the required
columns loads successfully, and a sheet missing `minimumSalary` fails
with a `KeyError`. -/
theorem load_data_amended_witness :
    load_data (.ok ⟨requiredColumns⟩)
      = .ok ⟨requiredColumns ++ ["avgSalary", "avgExperience", "experienceCategory"]⟩
    ∧ ((∃ c ∈ loadAccessedColumns,
          load_data (.ok (⟨["title"]⟩ : RawSheet)) = .error (.keyError c))
        ∧ main_runs_dashboard (.ok (⟨["title"]⟩ : RawSheet)) = false) :=
  ⟨load_data_amended.2.1 ⟨requiredColumns⟩ (by decide),
   load_data_amended.2.2 ⟨["title"]⟩ ⟨"minimumSalary", by decide, by decide⟩⟩

/-! ## Companies by average salary (C7) -/

/-- Round-half-to-even at integer precision: the rounding
`Series.round(0)` applies (numpy banker rounding), on the idealised
rationals. -/
def roundHalfEven (q : ℚ) : ℚ :=
  if q - (⌊q⌋ : ℚ) < 1 / 2 then (⌊q⌋ : ℚ)
  else if (1 : ℚ) / 2 < q - (⌊q⌋ : ℚ) then ((⌊q⌋ + 1 : ℤ) : ℚ)
  else if ⌊q⌋ % 2 = 0 then (⌊q⌋ : ℚ) else ((⌊q⌋ + 1 : ℤ) : ℚ)

/-- The valid (non-NaN) `avgSalary` values among the rows of company `c`
(`groupby(...)['avgSalary'].mean()` skips NaN inside a group). -/
def validSalaries (table : List RawRow) (c : String) : List ℚ :=
  table.filterMap (fun r => if r.companyName = c then avgSalary r else none)

/-- One group's value in
`df.groupby('companyName')['avgSalary'].mean().round(0)` (line 160): the
NaN-skipping mean of the group's salaries, rounded half-to-even; NaN
(`none`) when the group has no valid salary value. -/
def groupMeanRounded (table : List RawRow) (c : String) : Option ℚ :=
  if (validSalaries table c).length = 0 then none
  else some (roundHalfEven ((validSalaries table c).sum / (validSalaries table c).length))

/-- `x ≤ y` on possibly-NaN values with NaN at the bottom: the order
`sort_values(ascending=False)` realises, where NaN entries are placed
after all numeric entries (`na_position='last'`). -/
def oleNanLast : Option ℚ → Option ℚ → Prop
  | none, _ => True
  | some _, none => False
  | some a, some b => a ≤ b

instance : DecidableRel oleNanLast := fun x y =>
  match x, y with
  | none, _ => isTrue trivial
  | some _, none => isFalse id
  | some a, some b => inferInstanceAs (Decidable (a ≤ b))

/-- `p` precedes `q` in the descending-by-mean company ordering. -/
def salRel (p q : String × Option ℚ) : Prop := oleNanLast q.2 p.2

instance : DecidableRel salRel := fun p q =>
  inferInstanceAs (Decidable (oleNanLast q.2 p.2))

instance : IsTotal (String × Option ℚ) salRel := by
  constructor
  intro p q
  rcases hp : p.2 with _ | a <;> rcases hq : q.2 with _ | b <;>
    simp [salRel, oleNanLast, hp, hq]
  exact le_total b a

instance : IsTrans (String × Option ℚ) salRel := by
  constructor
  rintro ⟨p1, p2⟩ ⟨q1, q2⟩ ⟨s1, s2⟩ hpq hqs
  simp only [salRel] at hpq hqs ⊢
  cases s2 with
  | none => simp only [oleNanLast]
  | some c =>
    cases q2 with
    | none => simp only [oleNanLast] at hqs
    | some b =>
      cases p2 with
      | none => simp only [oleNanLast] at hpq
      | some a =>
        simp only [oleNanLast] at hqs hpq ⊢
        exact le_trans hqs hpq

/-- `df.groupby('companyName')['avgSalary'].mean().round(0)
.sort_values(ascending=False)` (lines 160–161): one entry per company,
sorted by descending rounded mean salary with NaN groups last. -/
def company_salary (table : List RawRow) : List (String × Option ℚ) :=
  List.insertionSort salRel
    ((firstUniques (table.map RawRow.companyName)).map
      (fun c => (c, groupMeanRounded table c)))

/-- `.head(n)` of `company_salary`; `create_chart6` uses `n = 10`. -/
def topCompaniesBySalary (n : Nat) (table : List RawRow) :
    List (String × Option ℚ) :=
  (company_salary table).take n

/-- A row of company `Acme` with a valid salary band. -/
def rowSalA : RawRow :=
  ⟨"Dev", "Acme", "Pune", none, some 4000, some 6000, some 1, some 3⟩

/-- A row of company `Beta` with both salary bounds missing, so its
`avgSalary` is NaN. -/
def rowSalB : RawRow :=
  ⟨"QA", "Beta", "Pune", none, none, none, some 1, some 3⟩

/-- Two-company table: `Acme` has a valid salary row, `Beta` has none. -/
def tableSal : List RawRow := [rowSalA, rowSalB]

/-- Counterexample to C7: company `Beta` has no row with a valid
`avgSalary`, yet it appears in the top-10 result (its NaN mean sorts
last, and `head(10)` still reaches it) — it is not excluded. -/
theorem topCompanies_includes_invalid_group :
    validSalaries tableSal "Beta" = []
    ∧ ("Beta", (none : Option ℚ)) ∈ topCompaniesBySalary 10 tableSal := by
  refine ⟨rfl, ?_⟩
  have hlen : (company_salary tableSal).length ≤ 10 := by
    rw [company_salary, List.length_insertionSort, List.length_map]
    decide
  rw [topCompaniesBySalary, List.take_of_length_le hlen, company_salary,
    List.mem_insertionSort, List.mem_map]
  exact ⟨"Beta", by decide, rfl⟩

/-- C7 amended: `topCompaniesBySalary n` returns `min n #companies`
entries — one per company appearing in the table, valued by the group's
rounded NaN-skipping mean — sorted descending with NaN-mean groups last;
a group with no valid salary row is not excluded: it appears with a NaN
(`none`) mean, which is `none` exactly when the group has no valid row. -/
theorem topCompaniesBySalary_spec (n : Nat) (table : List RawRow) :
    (topCompaniesBySalary n table).length
      = min n (firstUniques (table.map RawRow.companyName)).length
    ∧ List.Sorted salRel (topCompaniesBySalary n table)
    ∧ (∀ p : String × Option ℚ, p ∈ topCompaniesBySalary n table →
        p.1 ∈ table.map RawRow.companyName
        ∧ p.2 = groupMeanRounded table p.1
        ∧ (p.2 = none ↔ validSalaries table p.1 = [])) := by
  refine ⟨?_, ?_, ?_⟩
  · rw [topCompaniesBySalary, List.length_take, company_salary,
      List.length_insertionSort, List.length_map]
  · have hs := List.sorted_insertionSort salRel
      ((firstUniques (table.map RawRow.companyName)).map
        (fun c => (c, groupMeanRounded table c)))
    exact List.Pairwise.sublist (List.take_sublist n _) hs
  · intro p hp
    have hp2 : p ∈ company_salary table := List.mem_of_mem_take hp
    rw [company_salary, List.mem_insertionSort, List.mem_map] at hp2
    obtain ⟨c, hc, rfl⟩ := hp2
    refine ⟨(mem_firstUniques c _).mp hc, rfl, ?_⟩
    simp only [groupMeanRounded]
    split_ifs with h
    · exact iff_of_true rfl (List.length_eq_zero.mp h)
    · refine iff_of_false (by simp) (fun hnil => h ?_)
      rw [hnil]
      rfl

/-- Witness for C7's amended statement on the one-row table `[rowSalB]`:
the sole company `Beta` appears with NaN mean and empty valid-salary
list. -/
theorem topCompaniesBySalary_spec_witness :
    ("Beta" : String) ∈ [rowSalB].map RawRow.companyName
    ∧ (("Beta", (none : Option ℚ)) : String × Option ℚ).2
        = groupMeanRounded [rowSalB] "Beta"
    ∧ ((("Beta", (none : Option ℚ)) : String × Option ℚ).2 = none
        ↔ validSalaries [rowSalB] "Beta" = []) :=
  (topCompaniesBySalary_spec 10 [rowSalB]).2.2 ("Beta", none) (by decide)

/-! ## Top titles (C9) -/

/-- C9: `title_counts` returns at most 10 entries, sorted descending by
count with ties in first-encountered order (first occurrence in the
title column), and when fewer than 10 distinct titles exist it has
exactly one entry per distinct title. -/
theorem title_counts_spec (table : List RawRow) :
    (title_counts table).length ≤ 10
    ∧ (∀ i j : Fin (title_counts table).length, i < j →
        ((title_counts table).get j).2 ≤ ((title_counts table).get i).2)
    ∧ (∀ i j : Fin (title_counts table).length, i < j →
        ((title_counts table).get i).2 = ((title_counts table).get j).2 →
        (table.map RawRow.title).indexOf ((title_counts table).get i).1
          < (table.map RawRow.title).indexOf ((title_counts table).get j).1)
    ∧ ((firstUniques (table.map RawRow.title)).length < 10 →
        List.Perm ((title_counts table).map Prod.fst)
          (firstUniques (table.map RawRow.title))) := by
  have hpw : List.Pairwise (vcRel (table.map RawRow.title)) (title_counts table) := by
    rw [title_counts, value_counts]
    exact List.Pairwise.sublist (List.take_sublist 10 _)
      (List.sorted_insertionSort _ _)
  have hget := List.pairwise_iff_get.mp hpw
  have hmemkey : ∀ p : String × Nat, p ∈ title_counts table →
      p.1 ∈ table.map RawRow.title := by
    intro p hp
    exact ((mem_value_counts _ p).mp (List.mem_of_mem_take hp)).1
  have hnodup : ((title_counts table).map Prod.fst).Nodup := by
    refine List.Nodup.sublist ((List.take_sublist 10 _).map Prod.fst) ?_
    exact (keys_value_counts_perm (table.map RawRow.title)).nodup_iff.mpr
      (nodup_firstUniques _)
  refine ⟨?_, ?_, ?_, ?_⟩
  · rw [title_counts, List.length_take]
    exact Nat.min_le_left _ _
  · intro i j hij
    rcases hget i j hij with h | ⟨e, _⟩
    · exact le_of_lt h
    · exact le_of_eq e.symm
  · intro i j hij htie
    rcases hget i j hij with h | ⟨_, ile⟩
    · exact absurd h (htie ▸ lt_irrefl _)
    · refine lt_of_le_of_ne ile (fun heq => ?_)
      have hkeyeq : ((title_counts table).get i).1 = ((title_counts table).get j).1 :=
        (List.indexOf_inj (hmemkey _ (List.get_mem _ _ i.isLt))
          (hmemkey _ (List.get_mem _ _ j.isLt))).mp heq
      have hleneq : (title_counts table).length
          = ((title_counts table).map Prod.fst).length :=
        (List.length_map _ _).symm
      have hFin : i = j := by
        have hgi : ((title_counts table).map Prod.fst).get (Fin.cast hleneq i)
            = ((title_counts table).get i).1 := by simp
        have hgj : ((title_counts table).map Prod.fst).get (Fin.cast hleneq j)
            = ((title_counts table).get j).1 := by simp
        have hij2 : Fin.cast hleneq i = Fin.cast hleneq j :=
          (List.Nodup.get_inj_iff hnodup).mp
            (show ((title_counts table).map Prod.fst).get (Fin.cast hleneq i)
                = ((title_counts table).map Prod.fst).get (Fin.cast hleneq j) by
              rw [hgi, hgj]; exact hkeyeq)
        have hv : (Fin.cast hleneq i).val = (Fin.cast hleneq j).val :=
          congrArg Fin.val hij2
        exact Fin.ext hv
      exact absurd hFin (Fin.ne_of_lt hij)
  · intro h10
    have htake : title_counts table = value_counts (table.map RawRow.title) := by
      rw [title_counts]
      refine List.take_of_length_le ?_
      rw [value_counts, List.length_insertionSort, List.length_map]
      omega
    rw [htake]
    exact keys_value_counts_perm _

/-- Witness for C9 on `tableSal` (two distinct titles, a count tie):
counts are non-increasing at positions 0 and 1, and the keys are exactly
the distinct titles. -/
theorem title_counts_spec_witness :
    ((title_counts tableSal).get ⟨1, by decide⟩).2
      ≤ ((title_counts tableSal).get ⟨0, by decide⟩).2
    ∧ List.Perm ((title_counts tableSal).map Prod.fst)
        (firstUniques (tableSal.map RawRow.title)) :=
  ⟨(title_counts_spec tableSal).2.1 ⟨0, by decide⟩ ⟨1, by decide⟩ (by decide),
   (title_counts_spec tableSal).2.2.2 (by decide)⟩

/-! ## Skills tokenization (C8) -/

/-- `n` encodes an ASCII uppercase letter. -/
def isUpperNat (n : Nat) : Prop := 65 ≤ n ∧ n ≤ 90

instance (n : Nat) : Decidable (isUpperNat n) := by
  unfold isUpperNat; infer_instance

/-- Python `str.lower` on one character, on the ASCII fragment: uppercase
letters gain 32, everything else is unchanged. -/
def pyLower (c : Char) : Char :=
  if isUpperNat c.toNat then Char.ofNat (c.toNat + 32) else c

theorem toNat_ofNat_valid {n : Nat} (h : n.isValidChar) :
    (Char.ofNat n).toNat = n := by
  rw [Char.ofNat, dif_pos h]
  rfl

/-- Lowercasing never produces an ASCII uppercase letter. -/
theorem pyLower_not_upper (c : Char) : ¬ isUpperNat (pyLower c).toNat := by
  rw [pyLower]
  split
  · rename_i h
    rcases h with ⟨h1, h2⟩
    have hvalid : (c.toNat + 32).isValidChar := Or.inl (by omega)
    rw [toNat_ofNat_valid hvalid]
    unfold isUpperNat
    omega
  · rename_i h
    exact h

/-- A Python `\w` word character on the ASCII fragment: letter, digit or
underscore. -/
def isWordChar (c : Char) : Bool := c.isAlphanum || c = '_'

/-- Maximal runs of characters satisfying `p` — the matches of
`re.findall(r'\b\w+\b', ·)` when `p` is `isWordChar`.  `cur` holds the
reversed run currently being read. -/
def wordRunsAux (p : Char → Bool) : List Char → List Char → List (List Char)
  | cur, [] => if cur = [] then [] else [cur.reverse]
  | cur, c :: cs =>
    if p c then wordRunsAux p (c :: cur) cs
    else if cur = [] then wordRunsAux p [] cs
    else cur.reverse :: wordRunsAux p [] cs

/-- `' '.join(texts)` at character level. -/
def joinSpace : List (List Char) → List Char
  | [] => []
  | [t] => t
  | t :: ts => t ++ ' ' :: joinSpace ts

/-- The stop-word set of `create_wordcloud` (line 93 of the source). -/
def stop_words : List String :=
  ["and", "or", "the", "a", "an", "in", "on", "at", "to", "for", "of",
   "with", "by", "is", "are", "was", "were", "be", "been", "being",
   "have", "has", "had", "do", "does", "did", "will", "would", "could",
   "should", "may", "might", "must", "can", "shall", "skills", "skill",
   "experience", "required", "years", "year", "work"]

/-- `all_text.lower()` for the non-null skills fields (lines 91–92):
drop nulls, join with single spaces, lowercase every character. -/
def skillsText (fields : List (Option String)) : List Char :=
  (joinSpace ((fields.filterMap id).map String.toList)).map pyLower

/-- The retained token list of `create_wordcloud` (lines 92–94):
`\w+` runs of the lowercased text, keeping words not in the stop-word
set and longer than 2 characters. -/
def skills_words (fields : List (Option String)) : List String :=
  ((wordRunsAux isWordChar [] (skillsText fields)).map
    (fun cs => String.mk cs)).filter
    (fun w => !(stop_words.contains w) && decide (2 < w.length))

/-- Modelled from the spec: the spec's §4.2 words say tokens are
"lowercase word tokens (alphanumeric runs, length > 2)"; this variant of
`skills_words` differs only in taking maximal runs of *alphanumeric*
characters (no underscore).  Used solely for comparison with the
source-derived `skills_words`. -/
def skills_words_alnum (fields : List (Option String)) : List String :=
  ((wordRunsAux (fun c => c.isAlphanum) [] (skillsText fields)).map
    (fun cs => String.mk cs)).filter
    (fun w => !(stop_words.contains w) && decide (2 < w.length))

/-- Every character of every run produced by `wordRunsAux p` satisfies
`p` and comes from the current run or the remaining input. -/
theorem wordRunsAux_chars (p : Char → Bool) :
    ∀ (cs cur : List Char), (∀ c ∈ cur, p c = true) →
      ∀ r ∈ wordRunsAux p cur cs, ∀ c ∈ r, p c = true ∧ (c ∈ cur ∨ c ∈ cs) := by
  intro cs
  induction cs with
  | nil =>
    intro cur hcur r hr c hc
    rw [wordRunsAux] at hr
    split at hr
    · exact absurd hr (List.not_mem_nil r)
    · rcases List.mem_singleton.mp hr with rfl
      have hc2 : c ∈ cur := List.mem_reverse.mp hc
      exact ⟨hcur c hc2, Or.inl hc2⟩
  | cons d cs ih =>
    intro cur hcur r hr c hc
    rw [wordRunsAux] at hr
    by_cases hp : p d
    · rw [if_pos hp] at hr
      have hcur2 : ∀ c2 ∈ d :: cur, p c2 = true := by
        intro c2 hc2
        rcases List.mem_cons.mp hc2 with rfl | hc2
        · exact hp
        · exact hcur c2 hc2
      obtain ⟨h1, h2⟩ := ih (d :: cur) hcur2 r hr c hc
      refine ⟨h1, ?_⟩
      rcases h2 with h2 | h2
      · rcases List.mem_cons.mp h2 with rfl | h2
        · exact Or.inr (List.mem_cons_self _ _)
        · exact Or.inl h2
      · exact Or.inr (List.mem_cons_of_mem _ h2)
    · rw [if_neg hp] at hr
      by_cases hemp : cur = []
      · rw [if_pos hemp] at hr
        obtain ⟨h1, h2⟩ :=
          ih [] (fun c2 hc2 => absurd hc2 (List.not_mem_nil c2)) r hr c hc
        refine ⟨h1, ?_⟩
        rcases h2 with h2 | h2
        · exact absurd h2 (List.not_mem_nil c)
        · exact Or.inr (List.mem_cons_of_mem _ h2)
      · rw [if_neg hemp] at hr
        rcases List.mem_cons.mp hr with rfl | hr2
        · have hc2 : c ∈ cur := List.mem_reverse.mp hc
          exact ⟨hcur c hc2, Or.inl hc2⟩
        · obtain ⟨h1, h2⟩ :=
            ih [] (fun c2 hc2 => absurd hc2 (List.not_mem_nil c2)) r hr2 c hc
          refine ⟨h1, ?_⟩
          rcases h2 with h2 | h2
          · exact absurd h2 (List.not_mem_nil c)
          · exact Or.inr (List.mem_cons_of_mem _ h2)

/-- Counterexample to C8: `\w+` tokens may contain an underscore, which
is not alphanumeric.  On the skills field `"my_sql"` the code keeps the
token `"my_sql"`, whereas the alphanumeric-run tokenizer described by the
spec's words yields `["sql"]`. -/
theorem skills_words_underscore :
    skills_words [some "my_sql"] = ["my_sql"]
    ∧ ¬ (∀ c ∈ ("my_sql" : String).toList, Char.isAlphanum c = true)
    ∧ skills_words_alnum [some "my_sql"] = ["sql"]
    ∧ skills_words [some "my_sql"] ≠ skills_words_alnum [some "my_sql"] :=
  ⟨by decide, by decide, by decide, by decide⟩

/-- C8 amended: every retained token is longer than 2 characters, is not
a stop word, consists of word characters (letters, digits or underscore —
`\w` runs, not strictly alphanumeric runs), and contains no ASCII
uppercase letter (the text is lowercased before tokenizing, which is also
why a stop word is excluded whatever casing it arrives in); null and
empty skills fields contribute no tokens. -/
theorem skills_words_amended (fields : List (Option String)) :
    (∀ w ∈ skills_words fields, 2 < w.length ∧ w ∉ stop_words
      ∧ (∀ c ∈ w.toList, isWordChar c = true ∧ ¬ isUpperNat c.toNat))
    ∧ skills_words (none :: fields) = skills_words fields
    ∧ skills_words (some "" :: fields) = skills_words fields := by
  refine ⟨?_, rfl, ?_⟩
  · intro w hw
    rw [skills_words, List.mem_filter] at hw
    obtain ⟨hw1, hcond⟩ := hw
    obtain ⟨hstop, hlen⟩ := Bool.and_eq_true_iff.mp hcond
    refine ⟨of_decide_eq_true hlen, by simpa using hstop, ?_⟩
    obtain ⟨r, hr, rfl⟩ := List.mem_map.mp hw1
    intro c hc
    have hc2 : c ∈ r := hc
    obtain ⟨h1, h2⟩ := wordRunsAux_chars isWordChar (skillsText fields) []
      (fun c2 hc3 => absurd hc3 (List.not_mem_nil c2)) r hr c hc2
    refine ⟨h1, ?_⟩
    rcases h2 with h2 | h2
    · exact absurd h2 (List.not_mem_nil c)
    · rw [skillsText] at h2
      obtain ⟨d, _, rfl⟩ := List.mem_map.mp h2
      exact pyLower_not_upper d
  · have hstep : List.filterMap id (some "" :: fields) = "" :: fields.filterMap id := by
      simp [List.filterMap_cons]
    rw [skills_words, skills_words, skillsText, skillsText, hstep]
    cases hts : fields.filterMap id with
    | nil => rfl
    | cons t ts =>
      have h1 : pyLower ' ' = ' ' := rfl
      have h2 : isWordChar ' ' = false := rfl
      simp only [List.map_cons, joinSpace, String.toList, List.nil_append]
      simp only [List.map_cons, wordRunsAux, h1, h2, Bool.false_eq_true, if_false,
        if_pos, List.nil_append]

/-- Witness for C8's amended statement: the token `"python"` from a
concrete skills field satisfies the token shape, a null field contributes
nothing, and the stop word `skills` is excluded in every casing. -/
theorem skills_words_amended_witness :
    (2 < ("python" : String).length ∧ ("python" : String) ∉ stop_words
      ∧ (∀ c ∈ ("python" : String).toList, isWordChar c = true ∧ ¬ isUpperNat c.toNat))
    ∧ skills_words (none :: [some "Skills SKILLS skills"])
        = skills_words [some "Skills SKILLS skills"]
    ∧ skills_words [some "Skills SKILLS skills"] = [] :=
  ⟨(skills_words_amended [some "Python, SQL and Tableau"]).1 "python" (by decide),
   (skills_words_amended [some "Skills SKILLS skills"]).2.1,
   by decide⟩
